import Mathlib

/-!
Verification of the shuffleboard game core (turn/match state machine, AI shot
planner, scoring resolution) against its JavaScript sources.  Floating-point
numbers are modelled as rationals, scores as integers.  Each definition below
is a shallow embedding of the function of the same name in the sources; the
few collaborator methods the sources call but never define are modelled from
the specification and marked as such in their doc comments.
-/

namespace Shuffleboard

/-! ## utils.js -/

/-- Embedding of `clamp(value, min, max)` from `src/js/utils.js`:
`Math.min(Math.max(value, min), max)`. -/
def clamp (value lo hi : ℚ) : ℚ :=
  min (max value lo) hi

/-! ## board.js -/

/-- One entry of the `scoringZones` table of `src/js/board.js`:
`\x7b min, max, points, color \x7d`. -/
structure Zone where
  min : ℚ
  max : ℚ
  points : ℤ
  color : ℕ
deriving DecidableEq

/-- The `scoringZones` table built in the `Board` constructor
(`src/js/board.js`, lines 12-17), in declaration order. -/
def scoringZones : List Zone :=
  [⟨18, 20, 10, 0xffff00⟩,
   ⟨15, 18, 8, 0x0000ff⟩,
   ⟨10, 15, 7, 0x00ff00⟩,
   ⟨0, 10, -10, 0xff0000⟩]

/-- Whether a longitudinal coordinate `z` falls in zone `zo`:
the loop condition `z >= zone.min && z <= zone.max` of
`Board.getPointsForPosition`. -/
def zoneMatches (zo : Zone) (z : ℚ) : Prop :=
  zo.min ≤ z ∧ z ≤ zo.max

instance (zo : Zone) (z : ℚ) : Decidable (zoneMatches zo z) := by
  unfold zoneMatches; infer_instance

/-- The `for (const zone of ...) ... return zone.points` loop of
`Board.getPointsForPosition`, over an arbitrary zone list: the first matching
zone wins, and `0` is returned when no zone matches. -/
def firstMatchPoints : List Zone → ℚ → ℤ
  | [], _ => 0
  | zo :: rest, z => if zoneMatches zo z then zo.points else firstMatchPoints rest z

/-- Embedding of `Board.getPointsForPosition(z)` (`src/js/board.js`,
lines 72-79): the loop above run on the `scoringZones` table. -/
def getPointsForPosition (z : ℚ) : ℤ :=
  firstMatchPoints scoringZones z

/-! ## player.js -/

/-- Embedding of `Player.move(direction, delta)` (`src/js/player.js`,
lines 107-110) restricted to its effect on the lateral position:
`speed = 5 * delta; x = clamp(x + direction * speed, -1.5, 1.5)`. -/
def Player.move (x direction delta : ℚ) : ℚ :=
  clamp (x + direction * (5 * delta)) (-1.5) 1.5

/-! ## game.js state management (`setState`) -/

/-- The mutable fields touched (or deliberately not touched) by `setState`:
`state.value` plus, as a representative of the rest of the game state,
`state.isPaused`. -/
structure GameFlags where
  value : String
  isPaused : Bool
deriving DecidableEq

/-- The `validStates` set of `src/js/game.js` line 43, as a list. -/
def validStates : List String :=
  ["loading", "menu", "playing", "paused", "gameOver"]

/-- Embedding of `setState(newState)` (`src/js/game.js`, lines 104-125).
Returns the updated flags together with the list of
`(newState, oldState)` notifications delivered to the state-change
callbacks.  An invalid requested state is rejected up front (the source
logs a warning and returns), so nothing is mutated and no callback runs. -/
def setState (newState : String) (st : GameFlags) : GameFlags × List (String × String) :=
  if newState ∈ validStates then
    ({ st with value := newState }, [(newState, st.value)])
  else
    (st, [])

/-! ## game.js scoring resolution (`checkScoring`, `checkWinCondition`) -/

/-- The disc fields read and written by `checkScoring`
(`src/js/disc.js` plus the fields `checkScoring` assigns): the shot and
scored flags, the assigned score and score type, and the settled physics
position `(posX, posZ)` reported by `disc.getPosition()`. -/
structure Disc where
  hasBeenShot : Bool
  hasBeenScored : Bool
  score : ℤ
  scoreType : String
  posX : ℚ
  posZ : ℚ
deriving DecidableEq

/-- The slice of a `Player` record that `checkScoring` reads: its ordered
disc list. -/
structure PlayerRec where
  discs : List Disc
deriving DecidableEq

/-- The game fields `checkScoring` touches: the player list, the
`scores` array (indexed like `players`), `gameState`, and `winningScore`. -/
structure ScoringState where
  players : List PlayerRec
  scores : List ℤ
  gameState : String
  winningScore : ℤ
deriving DecidableEq

/-- Modelled from the spec: `Board.getScoreForPosition(x, z)` is called by
`checkScoring` but is defined nowhere in the sources (the board only defines
`getPointsForPosition`).  Per the spec, the longitudinal coordinate is looked
up against the zone table in order and the first matching zone wins, yielding
that zone value; no match yields null (`none`).  The zone values are the
`scoringZones` of `src/js/board.js`.  The zone category label is irrelevant
to the verified claims and is omitted. -/
def getScoreForPosition (_x z : ℚ) : Option ℤ :=
  (scoringZones.find? fun zo => decide (zoneMatches zo z)).map Zone.points

/-- Modelled from the spec: `Board.isOutOfBounds(x, z)` is called by
`checkScoring` but is defined nowhere in the sources.  Per the spec it is an
out-of-bounds predicate over the lateral axis; the board of
`src/js/board.js` has width 2 centred on the axis, so the lateral coordinate
is out of bounds when its magnitude exceeds 1. -/
def isOutOfBounds (x _z : ℚ) : Bool :=
  decide (x < -1) || decide (1 < x)

/-- The per-disc mutation of the `allDiscs.forEach` loop of `checkScoring`
(`src/js/game.js`, lines 663-701), parametric in the two board collaborator
functions: a shot, not-yet-scored disc is assigned the zone value when the
lookup succeeds, is marked `out` with value 0 when the lookup fails and the
disc is out of bounds, and is left untouched otherwise.  A disc with
`hasBeenScored` already true is skipped. -/
def scoreDisc (scoreFn : ℚ → ℚ → Option ℤ) (oobFn : ℚ → ℚ → Bool) (d : Disc) : Disc :=
  if d.hasBeenShot && !d.hasBeenScored then
    match scoreFn d.posX d.posZ with
    | some v => { d with score := v, scoreType := "zone", hasBeenScored := true }
    | none =>
      if oobFn d.posX d.posZ then
        { d with score := 0, scoreType := "out", hasBeenScored := true }
      else d
  else d

/-- The contribution of one disc to its owning player score in the same
loop: the zone value when the disc is newly scored through a successful
lookup, and 0 otherwise (the out-of-bounds branch assigns the disc value 0
and adds nothing to the player score). -/
def discDelta (scoreFn : ℚ → ℚ → Option ℤ) (d : Disc) : ℤ :=
  if d.hasBeenShot && !d.hasBeenScored then
    match scoreFn d.posX d.posZ with
    | some v => v
    | none => 0
  else 0

/-- Embedding of the scoring pass of `checkScoring` (`src/js/game.js`,
lines 648-701): an early return when `gameState` is `gameOver`, then every
disc of every player is scored by `scoreDisc` and each player score is
increased by the summed deltas of the discs it owns.  The source locates the
owner with `players.findIndex(p => p.discs.includes(disc))`; because each
disc object belongs to exactly one player list, this is the structural owner
index used here.  Each disc is visited once and its update and delta depend
only on its own prior state, so mapping the discs and summing the deltas is
the same mutation the source loop performs. -/
def checkScoringPass (scoreFn : ℚ → ℚ → Option ℤ) (oobFn : ℚ → ℚ → Bool)
    (st : ScoringState) : ScoringState :=
  if st.gameState = "gameOver" then st
  else
    { st with
      players := st.players.map fun p => ⟨p.discs.map (scoreDisc scoreFn oobFn)⟩,
      scores := List.zipWith
        (fun s p => s + (p.discs.map (discDelta scoreFn)).sum)
        st.scores st.players }

/-- Embedding of `checkWinCondition` (`src/js/game.js`, lines 720-724).
The source body is literally `return null; // Placeholder`, so the
embedding ignores its input and reports no winner. -/
def checkWinCondition (_st : ScoringState) : Option ℕ :=
  none

/-! ## Settling (`waitForDiscToStop`, `src/unnamed/part_001` lines 634-685) -/

/-- One settling poll as seen by `checkIfStopped`: the distance the disc
moved since the previous poll (`lastPosition.distanceTo(currentPosition)`)
and whether `disc.isOutOfBounds()` reports true. -/
structure PollSample where
  distanceMoved : ℚ
  outOfBounds : Bool
deriving DecidableEq

/-- The loop state of `checkIfStopped`: the `attempts` counter and the
`stationaryFrames` debounce counter. -/
structure SettleState where
  attempts : ℕ
  stationaryFrames : ℕ
deriving DecidableEq

/-- One iteration of the `checkIfStopped` closure of `waitForDiscToStop`:
`attempts` is incremented first, then
`isMoving = distanceMoved > threshold && !outOfBounds && attempts < maxChecks`,
and `stationaryFrames` is reset to 0 on a moving sample and incremented
otherwise. -/
def checkStep (threshold : ℚ) (maxChecks : ℕ) (st : SettleState) (s : PollSample) :
    SettleState :=
  let attempts := st.attempts + 1
  let isMoving := decide (threshold < s.distanceMoved) && !s.outOfBounds
      && decide (attempts < maxChecks)
  ⟨attempts, if isMoving then 0 else st.stationaryFrames + 1⟩

/-- The `checkIfStopped` polling loop run over a sample sequence: after each
step the disc is declared settled (returning the number of polls consumed)
when `stationaryFrames >= requiredStationaryFrames || attempts >= maxChecks`;
`none` means the sample sequence ended without settling. -/
def checkIfStopped (threshold : ℚ) (required maxChecks : ℕ) :
    SettleState → List PollSample → Option ℕ
  | _, [] => none
  | st, s :: rest =>
    let st' := checkStep threshold maxChecks st s
    if required ≤ st'.stationaryFrames || maxChecks ≤ st'.attempts then
      some st'.attempts
    else
      checkIfStopped threshold required maxChecks st' rest

/-- Embedding of `waitForDiscToStop` with its source constants:
`stationaryThreshold = 0.001`, `requiredStationaryFrames = 3`,
`maxChecks = 200`, starting from zeroed counters. -/
def waitForDiscToStop (samples : List PollSample) : Option ℕ :=
  checkIfStopped 0.001 3 200 ⟨0, 0⟩ samples

/-! ## AI shot planner (`aiTakeTurn`, `src/js/game.js` lines 513-619) -/

/-- The five per-difficulty constants of the `switch` in `aiTakeTurn`
(`src/js/game.js`, lines 528-550).  The angle variance is stored as the
coefficient of `Math.PI` (`PI/6`, `PI/12`, `PI/9`), since pi itself is not
rational and no verified claim depends on the angle. -/
structure AiDifficulty where
  angleVariancePi : ℚ
  powerVariance : ℚ
  minPower : ℚ
  maxPower : ℚ
  accuracy : ℚ
deriving DecidableEq

/-- The difficulty switch of `aiTakeTurn`: `easy` and `hard` have their own
parameter sets and every other string falls through to `medium` (the
`default` case). -/
def aiParams (difficulty : String) : AiDifficulty :=
  if difficulty = "easy" then ⟨1/6, 0.6, 0.2, 0.8, 0.6⟩
  else if difficulty = "hard" then ⟨1/12, 0.3, 0.4, 0.9, 0.9⟩
  else ⟨1/9, 0.45, 0.3, 0.85, 0.75⟩

/-- The target-selection part of `aiTakeTurn` (`src/js/game.js`,
lines 552-582), as a function of the accuracy parameter, the RNG stream
(`rng n` is the value of the n-th `Math.random()` call, in evaluation
order) and the positions of the opponent discs returned by the missing
`getOpponentDiscs` collaborator.  `targetX`/`targetZ` start at the default
centre `(0, 10)`; an accurate draw picks one of three sub-strategies by the
`zone` draw, and the opponent-strike branch leaves the default in place when
no opponent discs exist. -/
def aiTarget (accuracy : ℚ) (rng : ℕ → ℚ) (opponentDiscs : List (ℚ × ℚ)) : ℚ × ℚ :=
  if rng 0 < accuracy then
    let zone := rng 1
    if zone < 0.4 then
      ((rng 2 - 0.5) * 0.5, 9.5 + rng 3 * 0.5)
    else if zone < 0.7 then
      ((rng 2 - 0.5) * 2, 8 + rng 3 * 1.5)
    else
      if 0 < opponentDiscs.length then
        let i := (⌊rng 2 * opponentDiscs.length⌋).toNat
        let pos := opponentDiscs.getD i (0, 0)
        (pos.1 + (rng 3 - 0.5) * 0.5, pos.2 + (rng 4 - 0.5) * 0.5)
      else
        (0, 10)
  else
    ((rng 1 - 0.5) * 4, 7 + rng 2 * 4)

/-- The power computation of `aiTakeTurn` (`src/js/game.js`, lines 593-598):
`power = clamp(distance / 15, minPower, maxPower)`, then
`power *= 1 + (r * 2 - 1) * powerVariance`, then
`power = clamp(power, 0.1, 1.0)`.  The straight-line `distance`
(`Math.sqrt(dx*dx + dz*dz)`, not rational in general) is passed in as a
parameter. -/
def aiShotPower (difficulty : String) (distance rPower : ℚ) : ℚ :=
  let p := aiParams difficulty
  let power := clamp (distance / 15) p.minPower p.maxPower
  let power := power * (1 + (rPower * 2 - 1) * p.powerVariance)
  clamp power 0.1 1.0

/-! ## Turn rotation (`endTurn`, `src/js/game.js` lines 621-646) -/

/-- The turn-rotation state: `currentPlayerIndex` and, per player, the
number of discs not yet shot this round (the count behind the missing
`getRemainingDiscs`; per the spec each player starts a round with a fixed
disc set and a disc is consumed when shot). -/
structure RoundState where
  currentPlayerIndex : ℕ
  remaining : List ℕ
deriving DecidableEq

/-- One complete turn of the round loop.  The shot itself is modelled from
the spec (the input handler and `Disc.shoot` are missing from the sources):
the active player shoots exactly one of its remaining discs, decrementing
its count.  The rest follows the sources: `checkScoring` ends the round when
every disc of every player has been shot (`src/js/game.js` line 711-713);
otherwise `endTurn` advances
`currentPlayerIndex = (currentPlayerIndex + 1) % players.length` and ends
the round early when the upcoming player has no remaining discs
(`src/js/game.js` lines 634-641).  Returns the new state and whether the
round is over. -/
def roundTurn (st : RoundState) : RoundState × Bool :=
  let rem := st.remaining.set st.currentPlayerIndex
      (st.remaining.getD st.currentPlayerIndex 0 - 1)
  if ∀ x ∈ rem, x = 0 then
    (⟨st.currentPlayerIndex, rem⟩, true)
  else
    let nextIndex := (st.currentPlayerIndex + 1) % st.remaining.length
    if rem.getD nextIndex 0 = 0 then (⟨nextIndex, rem⟩, true)
    else (⟨nextIndex, rem⟩, false)

/-- Runs the round loop, collecting the index of the player who shoots on
each turn, until the round ends (or the fuel runs out). -/
def roundShooters : ℕ → RoundState → List ℕ
  | 0, _ => []
  | fuel + 1, st =>
    let step := roundTurn st
    st.currentPlayerIndex :: (if step.2 then [] else roundShooters fuel step.1)

end Shuffleboard

namespace Shuffleboard

/-- The set of targets the mid-value-zone sub-strategy of `aiTakeTurn` can
produce (`src/js/game.js`, lines 566-567): `targetX = (r1 - 0.5) * 2`,
`targetZ = 8 + r2 * 1.5` for uniform draws `r1, r2` in `[0, 1)`.  Stated
from the spec wording of the strategy, to compare the fallback target
against. -/
def midValueZoneTarget (t : ℚ × ℚ) : Prop :=
  ∃ r1 r2 : ℚ, 0 ≤ r1 ∧ r1 < 1 ∧ 0 ≤ r2 ∧ r2 < 1 ∧
    t = ((r1 - 0.5) * 2, 8 + r2 * 1.5)

/-- A one-disc game state whose only shot, unscored disc rests at
`(x, z) = (0, 5)`, inside the negative zone of the `scoringZones` table. -/
def penaltyState : ScoringState :=
  ⟨[⟨[⟨true, false, 0, "", 0, 5⟩]⟩, ⟨[]⟩], [0, 0], "playing", 75⟩

/-- The clamp helper returns a value inside `[lo, hi]` whenever
`lo ≤ hi`. -/
theorem clamp_mem (value lo hi : ℚ) (h : lo ≤ hi) :
    lo ≤ clamp value lo hi ∧ clamp value lo hi ≤ hi := by
  constructor
  · exact le_min (le_max_right value lo) h
  · exact min_le_right _ hi

/-- C10: every call to `Player.move` leaves the lateral position inside
`[-1.5, 1.5]`, for any prior position, direction and delta; in particular
a position inside the interval can never leave it. -/
theorem C10_move_stays_within_bounds (x direction delta : ℚ) :
    -1.5 ≤ Player.move x direction delta ∧ Player.move x direction delta ≤ 1.5 :=
  clamp_mem _ _ _ (by norm_num)

theorem C10_move_stays_within_bounds_witness :
    -1.5 ≤ Player.move 0 1 1 ∧ Player.move 0 1 1 ≤ 1.5 :=
  C10_move_stays_within_bounds 0 1 1

/-- C9: a requested state value outside the valid-state set leaves the
game state record unchanged and fires no state-change callback. -/
theorem C9_setState_invalid_is_noop (s : String) (st : GameFlags)
    (h : s ∉ validStates) :
    setState s st = (st, []) := by
  unfold setState
  simp [h]

theorem C9_setState_invalid_is_noop_witness :
    "shooting" ∉ validStates ∧ setState "shooting" ⟨"menu", false⟩ = (⟨"menu", false⟩, []) :=
  ⟨by decide, C9_setState_invalid_is_noop "shooting" ⟨"menu", false⟩ (by decide)⟩

/-- C2: at the state with cumulative scores `[80, 62]` and
`winningScore = 75`, the win-condition check of the source (the
`return null` placeholder) reports no winner at all — in particular it does
not report player 0 — so the transition to game over never fires. -/
theorem C2_checkWinCondition_placeholder_no_winner :
    checkWinCondition ⟨[⟨[]⟩, ⟨[]⟩], [80, 62], "playing", 75⟩ = none ∧
      checkWinCondition ⟨[⟨[]⟩, ⟨[]⟩], [80, 62], "playing", 75⟩ ≠ some 0 :=
  ⟨rfl, by decide⟩

/-- C3: for every difficulty string, every target distance and every RNG
draw, the final AI shot power lies in `[0.1, 1.0]`: the base power is
clamped to the tier bounds, perturbed multiplicatively, then clamped to the
hard bounds. -/
theorem C3_ai_power_bounds (difficulty : String) (distance rPower : ℚ) :
    0.1 ≤ aiShotPower difficulty distance rPower ∧
      aiShotPower difficulty distance rPower ≤ 1.0 :=
  clamp_mem _ _ _ (by norm_num)

theorem C3_ai_power_bounds_witness :
    0.1 ≤ aiShotPower "easy" 12 0.99 ∧ aiShotPower "easy" 12 0.99 ≤ 1.0 :=
  C3_ai_power_bounds "easy" 12 0.99

/-- C4: zone lookup is inclusive at the lower bound (for every zone of the
table, looking up exactly `min` returns that zone value) and, in general,
when several zones match a coordinate the first matching zone in declaration
order wins — witnessed concretely at `z = 18`, matched by the first two
zones of the table and resolved to the value 10 of the first. -/
theorem C4_zone_lookup_inclusive_first_match :
    (∀ zo ∈ scoringZones, getPointsForPosition zo.min = zo.points) ∧
    (∀ (pre post : List Zone) (zo : Zone) (z : ℚ),
      (∀ zo2 ∈ pre, ¬ zoneMatches zo2 z) → zoneMatches zo z →
      firstMatchPoints (pre ++ zo :: post) z = zo.points) ∧
    (zoneMatches ⟨18, 20, 10, 0xffff00⟩ 18 ∧ zoneMatches ⟨15, 18, 8, 0x0000ff⟩ 18 ∧
      getPointsForPosition 18 = 10) := by
  refine ⟨by decide, ?_, by decide⟩
  intro pre post zo z hpre hzo
  induction pre with
  | nil => simp [firstMatchPoints, hzo]
  | cons a as ih =>
    have ha : ¬ zoneMatches a z := hpre a (by simp)
    simp only [List.cons_append, firstMatchPoints, if_neg ha]
    exact ih fun zo2 h2 => hpre zo2 (by simp [h2])

theorem C4_zone_lookup_inclusive_first_match_witness :
    getPointsForPosition 15 = 8 ∧
      firstMatchPoints
        ([⟨18, 20, 10, 0xffff00⟩] ++
          ⟨15, 18, 8, 0x0000ff⟩ :: [⟨10, 15, 7, 0x00ff00⟩, ⟨0, 10, -10, 0xff0000⟩]) 15 = 8 :=
  ⟨C4_zone_lookup_inclusive_first_match.1 ⟨15, 18, 8, 0x0000ff⟩ (by decide),
   C4_zone_lookup_inclusive_first_match.2.1
     [⟨18, 20, 10, 0xffff00⟩] [⟨10, 15, 7, 0x00ff00⟩, ⟨0, 10, -10, 0xff0000⟩]
     ⟨15, 18, 8, 0x0000ff⟩ 15 (by decide) (by decide)⟩

end Shuffleboard

namespace Shuffleboard

/-- C8 counterexample: with an accuracy draw that succeeds, a zone draw of
0.8 selecting the opponent-strike sub-strategy, and no opponent discs, the
planner target is the default centre `(0, 10)` — which is not a target the
mid-value zone strategy can produce (its longitudinal targets lie in
`[8, 9.5)`), refuting the claim that the planner falls back to the
mid-value zone strategy. -/
theorem C8_strike_fallback_counterexample :
    aiTarget 0.6 (fun n => if n = 0 then 0 else 0.8) [] = (0, 10) ∧
      ¬ midValueZoneTarget (0, 10) := by
  constructor
  · norm_num [aiTarget]
  · rintro ⟨r1, r2, -, -, -, hr2, heq⟩
    have h10 : (10 : ℚ) = 8 + r2 * 1.5 := congrArg Prod.snd heq
    nlinarith

/-- C8 amended: when the accuracy draw succeeds, the opponent-strike
sub-strategy is selected (zone draw at least 0.7) and the opponent has no
discs on the board, the planner falls back to the default centre target
`(0, 10)` rather than to the mid-value zone strategy. -/
theorem C8_strike_no_opponents_uses_default_center (accuracy : ℚ) (rng : ℕ → ℚ)
    (hacc : rng 0 < accuracy) (hz1 : ¬ rng 1 < 0.4) (hz2 : ¬ rng 1 < 0.7) :
    aiTarget accuracy rng [] = (0, 10) := by
  unfold aiTarget
  simp [hacc, hz1, hz2]

theorem C8_strike_no_opponents_uses_default_center_witness :
    ((fun n => if n = 0 then (0 : ℚ) else 0.8) 0 < 0.75 ∧
      ¬ (fun n => if n = 0 then (0 : ℚ) else 0.8) 1 < 0.4 ∧
      ¬ (fun n => if n = 0 then (0 : ℚ) else 0.8) 1 < 0.7) ∧
    aiTarget 0.75 (fun n => if n = 0 then (0 : ℚ) else 0.8) [] = (0, 10) :=
  ⟨⟨by norm_num, by norm_num, by norm_num⟩,
   C8_strike_no_opponents_uses_default_center 0.75 _ (by norm_num) (by norm_num) (by norm_num)⟩

/-- C7 counterexample: resolving scoring for a disc settled at `z = 5`
(inside the `points = -10` zone of the source table) lowers the owning
player cumulative score from 0 to -10 within the round, refuting
monotonicity. -/
theorem C7_negative_zone_lowers_score_counterexample :
    (checkScoringPass getScoreForPosition isOutOfBounds penaltyState).scores = [-10, 0] ∧
      (checkScoringPass getScoreForPosition isOutOfBounds penaltyState).scores.getD 0 0 <
        penaltyState.scores.getD 0 0 := by
  refine ⟨?_, ?_⟩ <;>
  · norm_num [checkScoringPass, penaltyState, discDelta, scoreDisc, getScoreForPosition,
      scoringZones, zoneMatches, List.find?]
    decide

end Shuffleboard

namespace Shuffleboard

lemma sum_discDelta_nonneg (f : ℚ → ℚ → Option ℤ) (p : PlayerRec)
    (h : ∀ d ∈ p.discs, 0 ≤ discDelta f d) :
    0 ≤ (p.discs.map (discDelta f)).sum := by
  refine List.sum_nonneg ?_
  intro x hx
  obtain ⟨d, hd, rfl⟩ := List.mem_map.1 hx
  exact h d hd

lemma forall2_le_zipWith_deltas (f : ℚ → ℚ → Option ℤ) :
    ∀ (scores : List ℤ) (players : List PlayerRec),
      scores.length ≤ players.length →
      (∀ p ∈ players, ∀ d ∈ p.discs, 0 ≤ discDelta f d) →
      List.Forall₂ (· ≤ ·) scores
        (List.zipWith (fun s p => s + (p.discs.map (discDelta f)).sum) scores players)
  | [], _, _, _ => by simp
  | s :: ss, [], h, _ => by simp at h
  | s :: ss, p :: ps, h, hd => by
    simp only [List.zipWith]
    refine List.Forall₂.cons ?_
      (forall2_le_zipWith_deltas f ss ps (by simpa using h) fun q hq => hd q (by simp [hq]))
    have h0 : 0 ≤ (p.discs.map (discDelta f)).sum :=
      sum_discDelta_nonneg f p (hd p (by simp))
    linarith

/-- C7 amended: a scoring resolution leaves every player cumulative score
non-decreasing provided none of the newly scored discs carries a negative
zone value (the source zone table does contain a negative zone, so the
unconditional claim fails; see the counterexample). -/
theorem C7_scores_nondecreasing_without_negative_deltas (st : ScoringState)
    (hlen : st.scores.length ≤ st.players.length)
    (h : ∀ p ∈ st.players, ∀ d ∈ p.discs, 0 ≤ discDelta getScoreForPosition d) :
    List.Forall₂ (· ≤ ·) st.scores
      (checkScoringPass getScoreForPosition isOutOfBounds st).scores := by
  unfold checkScoringPass
  by_cases hg : st.gameState = "gameOver"
  · simp only [if_pos hg]
    exact List.forall₂_same.2 fun x _ => le_refl x
  · simp only [if_neg hg]
    exact forall2_le_zipWith_deltas getScoreForPosition st.scores st.players hlen h

theorem C7_scores_nondecreasing_without_negative_deltas_witness :
    ((⟨[⟨[⟨true, false, 0, "", 0, 19⟩]⟩], [0], "playing", 75⟩ : ScoringState).scores.length ≤
        (⟨[⟨[⟨true, false, 0, "", 0, 19⟩]⟩], [0], "playing", 75⟩ : ScoringState).players.length) ∧
      List.Forall₂ (· ≤ ·)
        (⟨[⟨[⟨true, false, 0, "", 0, 19⟩]⟩], [0], "playing", 75⟩ : ScoringState).scores
        (checkScoringPass getScoreForPosition isOutOfBounds
          ⟨[⟨[⟨true, false, 0, "", 0, 19⟩]⟩], [0], "playing", 75⟩).scores :=
  ⟨by decide,
   C7_scores_nondecreasing_without_negative_deltas _ (by decide) (by decide)⟩

lemma discDelta_scoreDisc (f : ℚ → ℚ → Option ℤ) (g : ℚ → ℚ → Bool) (d : Disc) :
    discDelta f (scoreDisc f g d) = 0 := by
  unfold scoreDisc discDelta
  by_cases h : d.hasBeenShot && !d.hasBeenScored
  · cases hf : f d.posX d.posZ with
    | none =>
      by_cases hob : g d.posX d.posZ
      · simp [h, hf, hob]
      · simp [h, hf, hob]
    | some v => simp [h, hf]
  · simp [h]

lemma sum_discDelta_scoreDisc (f : ℚ → ℚ → Option ℤ) (g : ℚ → ℚ → Bool)
    (discs : List Disc) :
    ((discs.map (scoreDisc f g)).map (discDelta f)).sum = 0 := by
  induction discs with
  | nil => simp
  | cons d ds ih =>
    simp only [List.map_cons, List.sum_cons, discDelta_scoreDisc, zero_add]
    exact ih

lemma zipWith_add_zero_deltas (f : ℚ → ℚ → Option ℤ) :
    ∀ (l1 : List ℤ) (l2 : List PlayerRec),
      l1.length ≤ l2.length →
      (∀ p ∈ l2, (p.discs.map (discDelta f)).sum = 0) →
      List.zipWith (fun s p => s + (p.discs.map (discDelta f)).sum) l1 l2 = l1
  | [], _, _, _ => by simp
  | s :: ss, [], h, _ => by simp at h
  | s :: ss, p :: ps, h, h0 => by
    simp only [List.zipWith]
    rw [h0 p (by simp), add_zero,
      zipWith_add_zero_deltas f ss ps (by simpa using h) fun q hq => h0 q (by simp [hq])]

/-- C1: scoring resolution is idempotent on score totals — running the
scoring pass of `checkScoring` twice on the same settled-disc snapshot
yields the same player scores as running it once, for any zone-lookup and
out-of-bounds collaborator, because every disc the first pass touched has
`hasBeenScored = true` afterwards and contributes no further delta. -/
theorem C1_checkScoring_idempotent (f : ℚ → ℚ → Option ℤ) (g : ℚ → ℚ → Bool)
    (st : ScoringState) :
    (checkScoringPass f g (checkScoringPass f g st)).scores =
      (checkScoringPass f g st).scores := by
  unfold checkScoringPass
  by_cases hg : st.gameState = "gameOver"
  · simp [hg]
  · simp only [if_neg hg]
    refine zipWith_add_zero_deltas f _ _ ?_ ?_
    · simp only [List.length_zipWith, List.length_map]
      exact le_trans (min_le_right _ _) (le_refl _)
    · intro p hp
      obtain ⟨q, hq, rfl⟩ := List.mem_map.1 hp
      exact sum_discDelta_scoreDisc f g q.discs

theorem C1_checkScoring_idempotent_witness :
    (checkScoringPass getScoreForPosition isOutOfBounds
        (checkScoringPass getScoreForPosition isOutOfBounds penaltyState)).scores =
      (checkScoringPass getScoreForPosition isOutOfBounds penaltyState).scores :=
  C1_checkScoring_idempotent getScoreForPosition isOutOfBounds penaltyState

end Shuffleboard

namespace Shuffleboard

lemma checkIfStopped_settle_run (θ : ℚ) (r M : ℕ) (hr : 0 < r) :
    ∀ (samples : List PollSample) (st : SettleState),
      (∀ s ∈ samples, s.outOfBounds = false) →
      st.attempts + samples.length < M →
      (checkIfStopped θ r M st samples).isSome = true →
      (∃ m, 0 < m ∧ m ≤ samples.length ∧ r ≤ st.stationaryFrames + m ∧
        ∀ s ∈ samples.take m, s.distanceMoved ≤ θ) ∨
      (∃ i, i + r ≤ samples.length ∧
        ∀ s ∈ (samples.drop i).take r, s.distanceMoved ≤ θ)
  | [], st, _, _, hsome => by simp [checkIfStopped] at hsome
  | s :: rest, st, hoob, hM, hsome => by
    have hoobs : s.outOfBounds = false := hoob s (by simp)
    have hlen : st.attempts + rest.length + 1 < M := by
      simp only [List.length_cons] at hM; omega
    have hM1 : st.attempts + 1 < M := by omega
    have hstep : checkStep θ M st s =
        ⟨st.attempts + 1, if θ < s.distanceMoved then 0 else st.stationaryFrames + 1⟩ := by
      simp [checkStep, hoobs, hM1]
    rw [checkIfStopped, hstep] at hsome
    simp only [decide_eq_true_eq] at hsome
    by_cases hmv : θ < s.distanceMoved
    · simp only [if_pos hmv] at hsome
      have hcond : ¬ (r ≤ 0 ∨ M ≤ st.attempts + 1) := by omega
      rw [if_neg (by simpa using hcond)] at hsome
      rcases checkIfStopped_settle_run θ r M hr rest ⟨st.attempts + 1, 0⟩
          (fun q hq => hoob q (by simp [hq]))
          (show st.attempts + 1 + rest.length < M by omega) hsome with
        ⟨m, hm0, hmlen, hrm, hall⟩ | ⟨i, hi, hall⟩
      · have hrm2 : r ≤ 0 + m := hrm
        refine Or.inr ⟨1, by simp only [List.length_cons]; omega, ?_⟩
        intro q hq
        simp only [List.drop_succ_cons, List.drop_zero] at hq
        have hsub : rest.take r = (rest.take m).take r := by
          rw [List.take_take, Nat.min_eq_left (by omega)]
        rw [hsub] at hq
        exact hall q (List.take_subset _ _ hq)
      · refine Or.inr ⟨i + 1, by simp only [List.length_cons]; omega, ?_⟩
        intro q hq
        simp only [List.drop_succ_cons] at hq
        exact hall q hq
    · simp only [if_neg hmv] at hsome
      push_neg at hmv
      by_cases hset : r ≤ st.stationaryFrames + 1
      · refine Or.inl ⟨1, one_pos, by simp, by omega, ?_⟩
        intro q hq
        simp only [List.take_succ_cons, List.take_zero, List.mem_singleton] at hq
        simpa [hq] using hmv
      · have hcond : ¬ (r ≤ st.stationaryFrames + 1 ∨ M ≤ st.attempts + 1) := by omega
        rw [if_neg (by simpa using hcond)] at hsome
        rcases checkIfStopped_settle_run θ r M hr rest ⟨st.attempts + 1, st.stationaryFrames + 1⟩
            (fun q hq => hoob q (by simp [hq]))
            (show st.attempts + 1 + rest.length < M by omega) hsome with
          ⟨m, hm0, hmlen, hrm, hall⟩ | ⟨i, hi, hall⟩
        · have hrm2 : r ≤ st.stationaryFrames + 1 + m := hrm
          refine Or.inl ⟨m + 1, by omega, by simp only [List.length_cons]; omega,
            by omega, ?_⟩
          intro q hq
          simp only [List.take_succ_cons, List.mem_cons] at hq
          rcases hq with rfl | hq
          · exact hmv
          · exact hall q hq
        · refine Or.inr ⟨i + 1, by simp only [List.length_cons]; omega, ?_⟩
          intro q hq
          simp only [List.drop_succ_cons] at hq
          exact hall q hq

/-- C5: absent the max-poll fail-safe and the out-of-bounds case, the
settling loop declares a disc settled only after a run of 3 consecutive
polls whose motion does not exceed the rest threshold; a sample above the
threshold resets the consecutive counter to zero; and on the sample
sequence 0.5, 0.05, 0.05, 0.05, 0.5 with threshold 0.1 the disc is not
settled at the third sample (it settles at the fourth, when the third
consecutive sub-threshold read completes). -/
theorem C5_settling_debounce :
    (∀ samples : List PollSample,
      (∀ s ∈ samples, s.outOfBounds = false) →
      samples.length < 200 →
      (waitForDiscToStop samples).isSome = true →
      ∃ i, i + 3 ≤ samples.length ∧
        ∀ s ∈ (samples.drop i).take 3, s.distanceMoved ≤ 0.001) ∧
    (∀ (θ : ℚ) (M : ℕ) (st : SettleState) (s : PollSample),
      θ < s.distanceMoved → s.outOfBounds = false → st.attempts + 1 < M →
      (checkStep θ M st s).stationaryFrames = 0) ∧
    checkIfStopped 0.1 3 200 ⟨0, 0⟩
      [⟨0.5, false⟩, ⟨0.05, false⟩, ⟨0.05, false⟩] = none ∧
    checkIfStopped 0.1 3 200 ⟨0, 0⟩
      [⟨0.5, false⟩, ⟨0.05, false⟩, ⟨0.05, false⟩, ⟨0.05, false⟩, ⟨0.5, false⟩] = some 4 := by
  refine ⟨?_, ?_, ?_, ?_⟩
  · intro samples hoob hlen hsome
    rcases checkIfStopped_settle_run 0.001 3 200 (by norm_num) samples ⟨0, 0⟩ hoob
        (show 0 + samples.length < 200 by omega) hsome with
      ⟨m, hm0, hmlen, hrm, hall⟩ | ⟨i, hi, hall⟩
    · have hrm2 : 3 ≤ 0 + m := hrm
      refine ⟨0, by omega, ?_⟩
      intro q hq
      simp only [List.drop_zero] at hq
      have hsub : samples.take 3 = (samples.take m).take 3 := by
        rw [List.take_take, Nat.min_eq_left (by omega)]
      rw [hsub] at hq
      exact hall q (List.take_subset _ _ hq)
    · exact ⟨i, hi, hall⟩
  · intro θ M st s hmv hoob hM
    simp [checkStep, hoob, hmv, hM]
  · norm_num [checkIfStopped, checkStep]
  · norm_num [checkIfStopped, checkStep]

theorem C5_settling_debounce_witness :
    ((∀ s ∈ [(⟨0, false⟩ : PollSample), ⟨0, false⟩, ⟨0, false⟩], s.outOfBounds = false) ∧
      ([(⟨0, false⟩ : PollSample), ⟨0, false⟩, ⟨0, false⟩].length < 200) ∧
      (waitForDiscToStop [⟨0, false⟩, ⟨0, false⟩, ⟨0, false⟩]).isSome = true) ∧
    ∃ i, i + 3 ≤ ([(⟨0, false⟩ : PollSample), ⟨0, false⟩, ⟨0, false⟩]).length ∧
      ∀ s ∈ (([(⟨0, false⟩ : PollSample), ⟨0, false⟩, ⟨0, false⟩]).drop i).take 3,
        s.distanceMoved ≤ 0.001 :=
  ⟨⟨by decide, by decide, by norm_num [waitForDiscToStop, checkIfStopped, checkStep]⟩,
   C5_settling_debounce.1 [⟨0, false⟩, ⟨0, false⟩, ⟨0, false⟩] (by decide) (by decide)
     (by norm_num [waitForDiscToStop, checkIfStopped, checkStep])⟩

end Shuffleboard


namespace Shuffleboard

lemma set_append_cons_length (l1 l2 : List ℕ) (x v : ℕ) :
    (l1 ++ x :: l2).set l1.length v = l1 ++ v :: l2 := by
  induction l1 with
  | nil => rfl
  | cons a t ih => simp [List.set, ih]

lemma getD_replicate_append (a b : ℕ) :
    ∀ (r m : ℕ), 0 < m →
      (List.replicate r a ++ List.replicate m b).getD r 0 = b
  | 0, m, hm => by
    cases m with
    | zero => omega
    | succ k => rfl
  | r + 1, m, hm => by
    rw [List.replicate_succ, List.cons_append, List.getD_cons_succ]
    exact getD_replicate_append a b r m hm

lemma length_flatten_replicate_range (D N : ℕ) :
    ((List.replicate D (List.range N)).flatten).length = D * N := by
  induction D with
  | zero => simp
  | succ e ih => simp [List.replicate_succ, ih, Nat.succ_mul, Nat.add_comm]

lemma roundShooters_inv (N : ℕ) (hN : 0 < N) :
    ∀ (fuel d r : ℕ), 0 < d → r < N → N * d - r ≤ fuel →
      roundShooters fuel ⟨r, List.replicate r (d - 1) ++ List.replicate (N - r) d⟩ =
        List.range' r (N - r) ++ (List.replicate (d - 1) (List.range N)).flatten
  | 0, d, r, hd, hr, hfuel => by
    exfalso
    have h1 : N ≤ N * d := Nat.le_mul_of_pos_right N hd
    omega
  | fuel + 1, d, r, hd, hr, hfuel => by
    set L := List.replicate r (d - 1) ++ List.replicate (N - r) d with hLdef
    set R := List.replicate (r + 1) (d - 1) ++ List.replicate (N - r - 1) d with hRdef
    have hrepl : List.replicate (N - r) d = d :: List.replicate (N - r - 1) d := by
      conv_lhs => rw [show N - r = (N - r - 1) + 1 by omega]
      rw [List.replicate_succ]
    have hgetD : L.getD r 0 = d := by
      rw [hLdef]
      exact getD_replicate_append (d - 1) d r (N - r) (by omega)
    have hset : L.set r (d - 1) = R := by
      rw [hLdef, hRdef, hrepl]
      have hs := set_append_cons_length (List.replicate r (d - 1))
        (List.replicate (N - r - 1) d) d (d - 1)
      rw [List.length_replicate] at hs
      rw [hs, List.replicate_succ' r (d - 1), List.append_assoc, List.singleton_append]
    have hlen : L.length = N := by
      rw [hLdef]
      simp only [List.length_append, List.length_replicate]
      omega
    have hRmemd : N - r - 1 ≠ 0 → d ∈ R := fun h0 =>
      List.mem_append_right _ (List.mem_replicate.2 ⟨h0, rfl⟩)
    by_cases hlast : r + 1 = N
    · by_cases hd1 : d = 1
      · -- final shot: the set list is all zeroes, the round ends here
        have hall : ∀ x ∈ R, x = 0 := by
          rw [hRdef, hd1]
          simp only [Nat.sub_self, List.replicate_zero, List.nil_append]
          intro x hx
          rcases List.mem_append.1 hx with hx1 | hx2
          · exact (List.eq_of_mem_replicate hx1)
          · exact absurd hx2 (by simp [show N - r - 1 = 0 by omega])
        have hturn : roundTurn ⟨r, L⟩ = (⟨r, R⟩, true) := by
          unfold roundTurn
          simp only [hgetD, hset]
          rw [if_pos hall]
        rw [roundShooters, hturn]
        simp only [if_pos rfl]
        rw [show N - r = 1 by omega, show d - 1 = 0 by omega]
        simp [List.range'_succ]
      · -- last player of the pass: wrap to index 0, next pass begins
        have hR0 : R = List.replicate N (d - 1) := by
          rw [hRdef, show N - r - 1 = 0 by omega, List.replicate_zero, List.append_nil,
            show r + 1 = N from hlast]
        have hnotall : ¬ ∀ x ∈ R, x = 0 := by
          rw [hR0]
          intro hall
          have := hall (d - 1) (List.mem_replicate.2 ⟨by omega, rfl⟩)
          omega
        have hget0 : R.getD 0 0 = d - 1 := by
          rw [hR0]
          exact getD_replicate_append (d - 1) (d - 1) 0 N (by omega)
        have hturn : roundTurn ⟨r, L⟩ = (⟨0, R⟩, false) := by
          unfold roundTurn
          simp only [hgetD, hset, hlen]
          rw [if_neg hnotall, show (r + 1) % N = 0 by rw [hlast, Nat.mod_self],
            if_neg (by rw [hget0]; omega)]
        rw [roundShooters, hturn]
        simp only [if_neg (by exact Bool.false_ne_true)]
        have hmul : N * d = N * (d - 1) + N := by
          calc N * d = N * ((d - 1) + 1) := by rw [show (d - 1) + 1 = d by omega]
            _ = N * (d - 1) + N := Nat.mul_succ N (d - 1)
        have hstate : (⟨0, R⟩ : RoundState) =
            ⟨0, List.replicate 0 ((d - 1) - 1) ++ List.replicate (N - 0) (d - 1)⟩ := by
          rw [hR0]
          simp
        rw [hstate, roundShooters_inv N hN fuel (d - 1) 0 (by omega) hN (by omega)]
        rw [show (List.replicate (d - 1) (List.range N)).flatten =
            List.range N ++ (List.replicate ((d - 1) - 1) (List.range N)).flatten from by
          conv_lhs => rw [show d - 1 = ((d - 1) - 1) + 1 by omega]
          rw [List.replicate_succ, List.flatten_cons]]
        rw [show N - r = 1 by omega, List.range'_succ, Nat.sub_zero,
          List.range_eq_range' N]
        simp [show r + 1 = N from hlast]
      -- (the all-zero and wrap cases above exhaust r + 1 = N)
    · -- middle of the pass: the next player still has discs
      have hnotall : ¬ ∀ x ∈ R, x = 0 := by
        intro hall
        have := hall d (hRmemd (by omega))
        omega
      have hgetn : R.getD (r + 1) 0 = d := by
        rw [hRdef]
        exact getD_replicate_append (d - 1) d (r + 1) (N - r - 1) (by omega)
      have hturn : roundTurn ⟨r, L⟩ = (⟨r + 1, R⟩, false) := by
        unfold roundTurn
        simp only [hgetD, hset, hlen]
        rw [if_neg hnotall, show (r + 1) % N = r + 1 from Nat.mod_eq_of_lt (by omega),
          if_neg (by rw [hgetn]; omega)]
      rw [roundShooters, hturn]
      simp only [if_neg (by exact Bool.false_ne_true)]
      have hstate : (⟨r + 1, R⟩ : RoundState) =
          ⟨r + 1, List.replicate (r + 1) (d - 1) ++ List.replicate (N - (r + 1)) d⟩ := by
        rw [hRdef, show N - r - 1 = N - (r + 1) by omega]
      rw [hstate, roundShooters_inv N hN fuel d (r + 1) hd (by omega) (by omega)]
      conv_rhs => rw [show N - r = (N - (r + 1)) + 1 by omega]
      rw [List.range'_succ]
      simp

/-- C6: for `N` players each holding `D` discs, a round consists of exactly
`N * D` shots, and the sequence of shooting player indices is
`0, 1, ..., N-1` repeated `D` times: `currentPlayerIndex` advances as
`(currentPlayerIndex + 1) % N` at every turn end and never skips or repeats
a player who still has unshot discs. -/
theorem C6_turn_rotation (N D : ℕ) (hN : 0 < N) (hD : 0 < D) :
    roundShooters (N * D) ⟨0, List.replicate N D⟩ =
        (List.replicate D (List.range N)).flatten ∧
      (roundShooters (N * D) ⟨0, List.replicate N D⟩).length = N * D := by
  have h := roundShooters_inv N hN (N * D) D 0 hD hN (by omega)
  simp only [List.replicate_zero, List.nil_append, Nat.sub_zero] at h
  have hflat : (List.replicate D (List.range N)).flatten =
      List.range N ++ (List.replicate (D - 1) (List.range N)).flatten := by
    conv_lhs => rw [show D = (D - 1) + 1 by omega]
    rw [List.replicate_succ, List.flatten_cons]
  constructor
  · rw [h, hflat, List.range_eq_range' N]
  · rw [h, List.length_append, ← List.range_eq_range' N, List.length_range,
      length_flatten_replicate_range]
    have h1 : (D - 1) * N + N = D * N := by
      calc (D - 1) * N + N = ((D - 1) + 1) * N := (Nat.succ_mul (D - 1) N).symm
        _ = D * N := by rw [show (D - 1) + 1 = D by omega]
    have h2 : D * N = N * D := Nat.mul_comm D N
    omega

theorem C6_turn_rotation_witness :
    roundShooters (2 * 4) ⟨0, List.replicate 2 4⟩ =
        (List.replicate 4 (List.range 2)).flatten ∧
      (roundShooters (2 * 4) ⟨0, List.replicate 2 4⟩).length = 2 * 4 :=
  C6_turn_rotation 2 4 (by decide) (by decide)

end Shuffleboard
